import Mathlib

/-!
Verification development for `gerbv_vis.py`, a CLI utility that scans a
directory for Gerber/drill files, groups them by project and layer,
composes Gerbv viewer-project (`.gvp`) files, and drives the external
`gerbv` renderer.

Strings are modelled as `List Char` (ASCII; Python's `\w` and `.lower()`
coincide with the ASCII notions used here on all inputs of interest).
-/

abbrev Str := List Char

def str (s : String) : Str := s.data

/-- Python `\w` on ASCII: letters, digits, underscore. -/
def isWord (c : Char) : Bool := c.isAlphanum || c = '_'

/-- Length of the maximal `\w*` prefix of a character list. -/
def wordRun : Str → Nat
  | [] => 0
  | c :: cs => if isWord c then wordRun cs + 1 else 0

/-- Backtracking search for `(\w+).(\w+)$` on `r` (the unescaped `.` of the
source regex matches ANY character).  Tries the layer group `(\w+)` at
length `n`, `n-1`, ..., `1` (greedy, longest first), mirroring how the
Python engine backtracks.  For layer length `k+1` the separator is `r[k+1]`
and the extension is `r.drop (k+2)`, which must be a nonempty all-word run
reaching the end of the string. -/
def tryLE (r : Str) : Nat → Option (Str × Str)
  | 0 => none
  | Nat.succ k =>
    if !(r.drop (k + 2)).isEmpty && (r.drop (k + 2)).all isWord then
      some (r.take (k + 1), r.drop (k + 2))
    else tryLE r k

/-- Match `(\w+).(\w+)$` against `r`: the greedy `(\w+)` starts from the
maximal word run. Returns `(layer, extension)`. -/
def matchLE (r : Str) : Option (Str × Str) := tryLE r (wordRun r)

/-- Backtracking search for `(.*)-(\w+).(\w+)$`: the greedy `(.*)` puts the
hyphen as late as possible.  `tryProj file (i+1)` tries a hyphen at index
`i`, then earlier ones. -/
def tryProj (file : Str) : Nat → Option (Str × Str × Str)
  | 0 => none
  | Nat.succ i =>
    if file.get? i = some '-' then
      match matchLE (file.drop (i + 1)) with
      | some (l, e) => some (file.take i, l, e)
      | none => tryProj file i
    else tryProj file i

/-- `re.match("(.*)-(\w+).(\w+)$", file)`: result is
`(project, layer, extension)` of the leftmost-greedy match. -/
def matchName (file : Str) : Option (Str × Str × Str) :=
  tryProj file file.length

/-- `re.match("g[tb][opsl]|g\d+|gm\d+|drl", ext)`: the pattern is
anchored at the start only, so this is a PREFIX test, not a whole-string
test. -/
def extWhite (e : Str) : Bool :=
  (match e with
   | 'g' :: c1 :: c2 :: _ =>
     (c1 = 't' || c1 = 'b') && (c2 = 'o' || c2 = 'p' || c2 = 's' || c2 = 'l')
   | _ => false) ||
  (match e with
   | 'g' :: c :: _ => c.isDigit
   | _ => false) ||
  (match e with
   | 'g' :: 'm' :: c :: _ => c.isDigit
   | _ => false) ||
  (match e with
   | 'd' :: 'r' :: 'l' :: _ => true
   | _ => false)

/-- The per-file body of `find_gerber_files`: regex match, lower-case the
extension, test the whitelist.  Returns the `(project, layer)` key pair
under which the file is stored, or `none` when the file is skipped. -/
def classifyFile (file : Str) : Option (Str × Str) :=
  match matchName file with
  | none => none
  | some (p, l, e) =>
    if extWhite (e.map Char.toLower) then some (p, l) else none

example : classifyFile (str "proj-F_Cu.gtl") = some (str "proj", str "F_Cu") := by decide
example : classifyFile (str "proj-top.gvp") = none := by decide
example : classifyFile (str "a-b.gtlx") = some (str "a", str "b") := by decide
example : classifyFile (str "a-b!gtl") = some (str "a", str "b") := by decide
example : classifyFile (str "x-abcgtl") = none := by decide
example : classifyFile (str "p-In31_Cu.g31") = some (str "p", str "In31_Cu") := by decide

/-! ## Python dict model (association lists, insertion order preserved) -/

/-- Dict lookup (`k in d` / `d[k]`). -/
def dlookup {α : Type} : List (Str × α) → Str → Option α
  | [], _ => none
  | (k', v) :: t, k => if k' = k then some v else dlookup t k

/-- Dict store `d[k] = v`: overwrite in place, else append (Python dicts
preserve insertion order). -/
def dinsert {α : Type} : List (Str × α) → Str → α → List (Str × α)
  | [], k, v => [(k, v)]
  | (k', v') :: t, k, v =>
    if k' = k then (k, v) :: t else (k', v') :: dinsert t k v

/-- `os.path.join` for the relative-path cases exercised here. -/
def pathJoin (a b : Str) : Str :=
  if a = [] then b else if a.getLast? = some '/' then a ++ b else a ++ '/' :: b

abbrev Dict := List (Str × Str)
abbrev Dict2 := List (Str × Dict)

/-! ## `find_gerber_files` -/

/-- `if project not in gerbers: gerbers[project] = {}` followed by
`gerbers[project][layer] = path`. -/
def storeFile (g : Dict2) (p l v : Str) : Dict2 :=
  let inner := match dlookup g p with | some m => m | none => []
  dinsert g p (dinsert inner l v)

/-- The loop body of `find_gerber_files`, over an already-sorted listing. -/
def processFiles (dir : Str) : Dict2 → List Str → Dict2
  | g, [] => g
  | g, f :: fs =>
    match classifyFile f with
    | some (p, l) => processFiles dir (storeFile g p l (pathJoin dir f)) fs
    | none => processFiles dir g fs

/-- Python string comparison: lexicographic by code point. -/
def strLe : Str → Str → Bool
  | [], _ => true
  | _ :: _, [] => false
  | a :: s, b :: t => if a < b then true else if b < a then false else strLe s t

def strLeP (a b : Str) : Prop := strLe a b = true

instance : DecidableRel strLeP := fun a b =>
  instDecidableEqBool (strLe a b) true

/-- `sorted(os.listdir(path))`: lexicographic sort of directory entries. -/
def sortStrs (l : List Str) : List Str := l.insertionSort strLeP

def findGerberFiles (dir : Str) (listing : List Str) : Dict2 :=
  processFiles dir [] (sortStrs listing)

/-! ## `generate_gerbv_project` -/

def colorBoard : Nat × Nat × Nat × Nat := (51, 43, 22, 255)
def colorCopper : Nat × Nat × Nat × Nat := (179, 156, 0, 255)
def colorSoldermask : Nat × Nat × Nat × Nat := (20, 51, 36, 200)
def colorSilkscreen : Nat × Nat × Nat × Nat := (230, 230, 230, 255)
def colorPaste : Nat × Nat × Nat × Nat := (128, 128, 128, 255)

/-- Arguments of one `write_layer` call: filename, 8-bit RGBA as passed in,
inversion flag. -/
structure Raw where
  fname : Str
  color : Nat × Nat × Nat × Nat
  inv : Bool
deriving DecidableEq, Repr

/-- One block of the emitted `.gvp` text: either a `write_layer` block
(index, filename, optional inverted line, 16-bit color, alpha) or the
epilogue background pseudo-layer (index, filename, color only). -/
inductive Block where
  | content (idx : Int) (fname : Str) (inv : Bool) (color : Nat × Nat × Nat) (alpha : Nat)
  | background (idx : Int) (fname : Str) (color : Nat × Nat × Nat)
deriving DecidableEq, Repr

/-- `[x * 256 for x in color[:3]]`. -/
def scale3 (c : Nat × Nat × Nat × Nat) : Nat × Nat × Nat :=
  (c.1 * 256, c.2.1 * 256, c.2.2.1 * 256)

/-- The block text written by `write_layer(fp, fname, idx, color, inv)`. -/
def rawBlock (i : Int) (r : Raw) : Block :=
  Block.content i r.fname r.inv (scale3 r.color) (r.color.2.2.2 * 256)

/-- Sequential `layer_idx` assignment: each written layer gets the running
counter, which is incremented after every write. -/
def number (i : Int) : List Raw → List Block
  | [] => []
  | r :: rs => rawBlock i r :: number (i + 1) rs

/-- A conditional `write_layer` call guarded by `key in gerbers` (and for
paste additionally by `show_paste`). -/
def optRaw (g : Dict) (key : Str) (cond : Bool)
    (color : Nat × Nat × Nat × Nat) (inv : Bool) : List Raw :=
  match dlookup g key with
  | some f => if cond then [⟨f, color, inv⟩] else []
  | none => []

/-- The context layers written before the target copper layer: board
outline, PTH/NPTH drills, and for a top/bottom target the side's
paste/silkscreen/soldermask (soldermask inverted), in source order.
`layer.take 1` is Python's `layer[0]` used to build the side keys. -/
def contextRaw (g : Dict) (layer : Str) (showPaste : Bool) : List Raw :=
  optRaw g (str "Edge_Cuts") true (0, 0, 0, 255) false ++
  optRaw g (str "PTH") true (0, 0, 0, 255) false ++
  optRaw g (str "NPTH") true (0, 0, 0, 255) false ++
  (if layer = str "F_Cu" ∨ layer = str "B_Cu" then
    optRaw g (layer.take 1 ++ str "_Paste") showPaste colorPaste false ++
    optRaw g (layer.take 1 ++ str "_Silkscreen") true colorSilkscreen false ++
    optRaw g (layer.take 1 ++ str "_Mask") true colorSoldermask true
  else [])

/-- The epilogue background pseudo-layer: index -1, empty filename, board
color. -/
def bgBlock : Block := Block.background (-1) [] (scale3 colorBoard)

/-- The blocks actually written to the file, and whether the function ran
to completion: the unconditional `gerbers[layer]` lookup for the copper
block raises `KeyError` when the target layer is absent, after the
prologue and all context layers are already written (and before the
epilogue). -/
def generateRun (g : Dict) (layer : Str) (showPaste : Bool) : List Block × Bool :=
  let ctx := contextRaw g layer showPaste
  match dlookup g layer with
  | some f => (number 0 (ctx ++ [⟨f, colorCopper, false⟩]) ++ [bgBlock], true)
  | none => (number 0 ctx, false)

/-- Successful composition: all blocks plus the `(set-render-type! 3)`
directive. -/
def generateGerbvProject (g : Dict) (layer : Str) (showPaste : Bool) :
    Option (List Block × Nat) :=
  let r := generateRun g layer showPaste
  if r.2 then some (r.1, 3) else none

/-! ## `main`: project-file generation and render driver -/

def natStr (n : Nat) : Str := (toString n).data

def intStr (i : Int) : Str := (toString i).data

/-- `"{}-{}.gvp".format(project, layer_name)`. -/
def gvpName (project lname : Str) : Str :=
  project ++ '-' :: (lname ++ str ".gvp")

/-- The `.gvp` files written for one project group: top copper, bottom
copper, then inner layers `In1_Cu` .. `In30_Cu` via `for i in range(2, 32)`
with identifier `In{i-1}_Cu` and display name `in{i-1}`.  Each job is the
`(layer_id, file_name)` pair passed through `write_gvp`. -/
def gvpJobsFor (project : Str) (g : Dict) : List (Str × Str) :=
  (if (dlookup g (str "F_Cu")).isSome
   then [(str "F_Cu", gvpName project (str "top"))] else []) ++
  (if (dlookup g (str "B_Cu")).isSome
   then [(str "B_Cu", gvpName project (str "bot"))] else []) ++
  (List.range' 2 30).filterMap (fun i =>
    if (dlookup g (str "In" ++ natStr (i - 1) ++ str "_Cu")).isSome
    then some (str "In" ++ natStr (i - 1) ++ str "_Cu",
      gvpName project (str "in" ++ natStr (i - 1))) else none)

/-- All `.gvp` filenames written into the scanned directory. -/
def gvpFiles (all : Dict2) : List Str :=
  all.flatMap fun pg => (gvpJobsFor pg.1 pg.2).map Prod.snd

/-- Python `str.replace`: every non-overlapping occurrence, left to right
(the behaviour for an empty pattern differs from Python but the only
pattern used is `".gvp"`). -/
def replaceAll (pat sub : Str) : Str → Str
  | [] => []
  | c :: rest =>
    if h : pat ≠ [] ∧ pat.isPrefixOf (c :: rest) then
      sub ++ replaceAll pat sub ((c :: rest).drop pat.length)
    else c :: replaceAll pat sub rest
termination_by s => s.length
decreasing_by
  · simp only [List.length_drop]
    have : 0 < pat.length := List.length_pos.mpr h.1
    simp only [List.length_cons]
    omega
  · simp

/-- `os.path.basename`: the part after the last slash. -/
def basename (s : Str) : Str := (s.reverse.takeWhile (· ≠ '/')).reverse

structure RenderArgs where
  fmt : Str
  dpi : Nat
  output : Option Str
  gerbvBin : Str

/-- `gvp_file.replace(".gvp", ".{}".format(args.format))`, relocated into
the output directory when `--output` is given. -/
def imgFile (a : RenderArgs) (gvp : Str) : Str :=
  let img := replaceAll (str ".gvp") ('.' :: a.fmt) gvp
  match a.output with
  | some o => pathJoin o (basename img)
  | none => img

/-- `"Generating '{}' ...".format(os.path.basename(img_file))`. -/
def genMsg (img : Str) : Str :=
  str "Generating '" ++ basename img ++ str "' ..."

/-- `" ERROR! Gerbv failed with {}!".format(p.returncode)`. -/
def errMsg (code : Int) : Str :=
  str " ERROR! Gerbv failed with " ++ intStr code ++ str "!"

/-- The console lines printed by the render loop, given the renderer's
exit code for each job (the external `gerbv` process is an oracle here).
A nonzero exit code only adds an error line; the loop proceeds to the
next job unconditionally. -/
def renderLog (a : RenderArgs) (exitCode : Str → Int) (jobs : List Str) : List Str :=
  jobs.flatMap fun gvp =>
    genMsg (imgFile a gvp) ::
      (if exitCode gvp ≠ 0 then [errMsg (exitCode gvp)] else [])

/-- `main` falls off its end whatever the render loop observed, so the
interpreter exits with status 0. -/
def mainExitCode (_a : RenderArgs) (_exitCode : Str → Int) (_jobs : List Str) : Nat := 0

/-! ## Lemmas about the filename matcher -/

lemma wordRun_take_all : ∀ (r : Str) (k : Nat), k ≤ wordRun r →
    (r.take k).all isWord = true := by
  intro r
  induction r with
  | nil => intro k hk; simp [wordRun] at hk; simp [hk]
  | cons c cs ih =>
    intro k hk
    by_cases hc : isWord c
    · cases k with
      | zero => simp
      | succ k' =>
        simp only [wordRun, hc, if_pos] at hk
        simp only [List.take_succ_cons, List.all_cons, hc, Bool.true_and]
        exact ih k' (Nat.succ_le_succ_iff.mp hk)
    · simp [wordRun, hc] at hk
      simp [hk]

lemma le_wordRun_append : ∀ (l r : Str), l.all isWord = true →
    l.length ≤ wordRun (l ++ r) := by
  intro l
  induction l with
  | nil => intro r _; simp
  | cons c cs ih =>
    intro r h
    simp only [List.all_cons, Bool.and_eq_true] at h
    simp only [List.cons_append, wordRun, h.1, if_pos, List.length_cons]
    exact Nat.succ_le_succ (ih r h.2)

lemma tryLE_sound : ∀ (n : Nat) (r l e : Str), tryLE r n = some (l, e) →
    ∃ k, k < n ∧ l = r.take (k + 1) ∧ e = r.drop (k + 2) ∧
      e ≠ [] ∧ e.all isWord = true := by
  intro n
  induction n with
  | zero => intro r l e h; simp [tryLE] at h
  | succ m ih =>
    intro r l e h
    rw [tryLE] at h
    split at h
    next hg =>
      rw [Bool.and_eq_true] at hg
      rw [Option.some.injEq, Prod.mk.injEq] at h
      obtain ⟨h1, h2⟩ := h
      subst h1; subst h2
      refine ⟨m, Nat.lt_succ_self m, rfl, rfl, ?_, hg.2⟩
      intro he
      rw [he] at hg
      simp at hg
    next =>
      obtain ⟨k, hk, rest⟩ := ih r l e h
      exact ⟨k, Nat.lt_succ_of_lt hk, rest⟩

lemma matchLE_sound (r l e : Str) (h : matchLE r = some (l, e)) :
    ∃ c, r = l ++ c :: e ∧ l ≠ [] ∧ l.all isWord = true ∧
      e ≠ [] ∧ e.all isWord = true := by
  obtain ⟨k, hk, hl, he, hne, hw⟩ := tryLE_sound _ r l e h
  have hpos : 0 < (r.drop (k + 2)).length := by
    rw [← he]; exact List.length_pos.mpr hne
  rw [List.length_drop] at hpos
  have hlt2 : k + 1 < r.length := by omega
  refine ⟨r[k + 1], ?_, ?_, ?_, hne, hw⟩
  · conv_lhs => rw [← List.take_append_drop (k + 1) r,
      List.drop_eq_getElem_cons hlt2]
    rw [← hl, ← he]
  · rw [hl]
    intro hc
    rcases List.take_eq_nil_iff.mp hc with hc' | hc'
    · omega
    · rw [hc'] at hlt2; simp at hlt2
  · rw [hl]; exact wordRun_take_all r (k + 1) hk

lemma tryLE_complete : ∀ (n : Nat) (r l : Str) (c : Char) (e : Str),
    r = l ++ c :: e → l ≠ [] → l.all isWord = true → e ≠ [] →
    e.all isWord = true → l.length ≤ n → (tryLE r n).isSome := by
  intro n
  induction n with
  | zero =>
    intro r l c e _ hl _ _ _ hn
    exact absurd (List.length_eq_zero.mp (Nat.le_zero.mp hn)) hl
  | succ m ih =>
    intro r l c e hr hl hlw he hew hn
    rw [tryLE]
    split
    · simp
    next hg =>
      rcases Nat.lt_or_eq_of_le hn with hlt | heq
      · exact ih r l c e hr hl hlw he hew (Nat.lt_succ_iff.mp hlt)
      · exfalso
        apply hg
        have hdrop : r.drop (m + 2) = e := by
          rw [hr, show l ++ c :: e = (l ++ [c]) ++ e by simp,
            show m + 2 = (l ++ [c]).length by simp [← heq], List.drop_left]
        rw [hdrop, Bool.and_eq_true, Bool.not_eq_true']
        exact ⟨List.isEmpty_eq_false.mpr he, hew⟩

lemma matchLE_complete (r l : Str) (c : Char) (e : Str)
    (hr : r = l ++ c :: e) (hl : l ≠ []) (hlw : l.all isWord = true)
    (he : e ≠ []) (hew : e.all isWord = true) : (matchLE r).isSome := by
  apply tryLE_complete _ r l c e hr hl hlw he hew
  rw [hr]; exact le_wordRun_append l (c :: e) hlw

lemma tryProj_sound : ∀ (n : Nat) (file p l e : Str),
    tryProj file n = some (p, l, e) →
    ∃ i, i < n ∧ file.get? i = some '-' ∧ p = file.take i ∧
      matchLE (file.drop (i + 1)) = some (l, e) := by
  intro n
  induction n with
  | zero => intro file p l e h; simp [tryProj] at h
  | succ m ih =>
    intro file p l e h
    rw [tryProj] at h
    split at h
    next hc =>
      split at h
      next hm =>
        rw [Option.some.injEq, Prod.mk.injEq] at h
        obtain ⟨h1, h2⟩ := h
        rw [Prod.mk.injEq] at h2
        obtain ⟨h2, h3⟩ := h2
        subst h1; subst h2; subst h3
        exact ⟨m, Nat.lt_succ_self m, hc, rfl, hm⟩
      next =>
        obtain ⟨i, hi, rest⟩ := ih file p l e h
        exact ⟨i, Nat.lt_succ_of_lt hi, rest⟩
    next =>
      obtain ⟨i, hi, rest⟩ := ih file p l e h
      exact ⟨i, Nat.lt_succ_of_lt hi, rest⟩

lemma matchName_sound (file p l e : Str) (h : matchName file = some (p, l, e)) :
    ∃ c, file = p ++ '-' :: (l ++ c :: e) ∧ l ≠ [] ∧ l.all isWord = true ∧
      e ≠ [] ∧ e.all isWord = true := by
  obtain ⟨i, _, hc, hp, hm⟩ := tryProj_sound _ file p l e h
  obtain ⟨c, hrest, hl, hlw, he, hew⟩ := matchLE_sound _ _ _ hm
  rw [List.get?_eq_getElem?] at hc
  obtain ⟨hi, hgi⟩ := List.getElem?_eq_some_iff.mp hc
  refine ⟨c, ?_, hl, hlw, he, hew⟩
  subst hp
  conv_lhs => rw [← List.take_append_drop i file,
    List.drop_eq_getElem_cons hi]
  rw [hgi, ← hrest]

lemma tryProj_complete : ∀ (n : Nat) (file p rest : Str),
    file = p ++ '-' :: rest → (matchLE rest).isSome → p.length < n →
    (tryProj file n).isSome := by
  intro n
  induction n with
  | zero => intro _ p _ _ _ hn; omega
  | succ m ih =>
    intro file p rest hf hm hn
    rw [tryProj]
    by_cases hpm : p.length = m
    · have hc : file.get? m = some '-' := by
        rw [hf, ← hpm, List.get?_eq_getElem?,
          List.getElem?_append_right (Nat.le_refl p.length)]
        simp
      rw [if_pos hc]
      have hd : file.drop (m + 1) = rest := by
        rw [hf, show p ++ '-' :: rest = (p ++ ['-']) ++ rest by simp,
          show m + 1 = (p ++ ['-']).length by simp [hpm], List.drop_left]
      rw [hd]
      obtain ⟨⟨l', e'⟩, hle⟩ := Option.isSome_iff_exists.mp hm
      rw [hle]
      simp
    · have hlt : p.length < m := by omega
      split
      · split
        · simp
        · exact ih file p rest hf hm hlt
      · exact ih file p rest hf hm hlt

lemma matchName_complete (file p l : Str) (c : Char) (e : Str)
    (hf : file = p ++ '-' :: (l ++ c :: e)) (hl : l ≠ [])
    (hlw : l.all isWord = true) (he : e ≠ []) (hew : e.all isWord = true) :
    (matchName file).isSome := by
  apply tryProj_complete file.length file p (l ++ c :: e) hf
  · exact matchLE_complete _ l c e rfl hl hlw he hew
  · rw [hf]; simp

/-- A decomposition of `file` as `<project>-<layer><sep><extension>`:
`layer` and `extension` are nonempty word-character runs, `sep` is an
arbitrary single character (the `.` of the source regex is unescaped, so
it matches any character, not just a literal dot). -/
def Decomp (file p l e : Str) : Prop :=
  ∃ c, file = p ++ '-' :: (l ++ c :: e) ∧ l ≠ [] ∧ l.all isWord = true ∧
    e ≠ [] ∧ e.all isWord = true

lemma classifyFile_sound (file p l : Str) (h : classifyFile file = some (p, l)) :
    ∃ e, Decomp file p l e ∧ extWhite (e.map Char.toLower) = true := by
  rw [classifyFile] at h
  split at h
  · exact absurd h (by simp)
  next p' l' e' hm =>
    split at h
    next hw =>
      rw [Option.some.injEq, Prod.mk.injEq] at h
      obtain ⟨h1, h2⟩ := h
      subst h1; subst h2
      obtain ⟨c, hf, hl, hlw, he, hew⟩ := matchName_sound file p' l' e' hm
      exact ⟨e', ⟨c, hf, hl, hlw, he, hew⟩, hw⟩
    next => exact absurd h (by simp)

/-- C1 (amended).  The classifier accepts a filename only if it decomposes
as `<project>-<layer><sep><extension>` with a lower-cased extension that
BEGINS WITH one of the whitelist patterns `g[tb][opsl]`, `g` + digit,
`gm` + digit, `drl`; every filename admitting no such decomposition is
excluded; and every filename admitting such a decomposition is matched by
the filename pattern. -/
theorem C1_classifier_accept_characterization (file : Str) :
    (∀ p l, classifyFile file = some (p, l) →
      ∃ e, Decomp file p l e ∧ extWhite (e.map Char.toLower) = true) ∧
    ((∀ p l e, ¬ Decomp file p l e) → classifyFile file = none) ∧
    ((∃ p l e, Decomp file p l e) → (matchName file).isSome) := by
  refine ⟨fun p l h => classifyFile_sound file p l h, ?_, ?_⟩
  · intro hno
    cases hcl : classifyFile file with
    | none => rfl
    | some pl =>
      obtain ⟨p, l⟩ := pl
      obtain ⟨e, hd, _⟩ := classifyFile_sound file p l hcl
      exact absurd hd (hno p l e)
  · rintro ⟨p, l, e, c, hf, hl, hlw, he, hew⟩
    exact matchName_complete file p l c e hf hl hlw he hew

/-- C1 counterexample.  The claim is false as stated, in both directions
it pins down: `a-b.gtlx` has extension `gtlx`, which is OUTSIDE the
whitelist, yet is accepted (the whitelist regex is unanchored at the end,
so it is a prefix test); `a-b!gtl` does NOT match `<project>-<layer>.<ext>`
(there is no dot), yet is accepted (the `.` in the source regex is
unescaped and matches `!`). -/
theorem C1_counterexample :
    classifyFile (str "a-b.gtlx") = some (str "a", str "b") ∧
    classifyFile (str "a-b!gtl") = some (str "a", str "b") :=
  ⟨by decide, by decide⟩

/-- Witness for `C1_classifier_accept_characterization` at a concrete
accepted filename. -/
theorem C1_witness :
    ∃ e, Decomp (str "p-F_Cu.gtl") (str "p") (str "F_Cu") e ∧
      extWhite (e.map Char.toLower) = true :=
  (C1_classifier_accept_characterization (str "p-F_Cu.gtl")).1
    (str "p") (str "F_Cu") (by decide)

/-! ## Lemmas about the composer -/

lemma number_append (i : Int) (rs ss : List Raw) :
    number i (rs ++ ss) = number i rs ++ number (i + rs.length) ss := by
  induction rs generalizing i with
  | nil => simp [number]
  | cons r rs ih =>
    have harith : i + 1 + (rs.length : Int) = i + ((rs.length + 1 : Nat) : Int) := by
      push_cast; ring
    show rawBlock i r :: number (i + 1) (rs ++ ss) =
      rawBlock i r :: number (i + 1) rs ++ number (i + ((rs.length + 1 : Nat) : Int)) ss
    rw [ih, ← harith]
    simp

lemma number_length (i : Int) (rs : List Raw) :
    (number i rs).length = rs.length := by
  induction rs generalizing i with
  | nil => rfl
  | cons r rs ih => simp [number, ih]

lemma number_get : ∀ (rs : List Raw) (i : Int) (j : Nat)
    (hj : j < (number i rs).length),
    (number i rs).get ⟨j, hj⟩ =
      rawBlock (i + j) (rs.get ⟨j, by simpa [number_length] using hj⟩) := by
  intro rs
  induction rs with
  | nil => intro i j hj; simp [number] at hj
  | cons r rs ih =>
    intro i j hj
    cases j with
    | zero => simp [number]
    | succ j' =>
      have hj' : j' < (number (i + 1) rs).length := by
        simpa [number, Nat.succ_lt_succ_iff] using hj
      have hstep : (number i (r :: rs)).get ⟨j' + 1, hj⟩ =
          (number (i + 1) rs).get ⟨j', hj'⟩ := rfl
      rw [hstep, ih (i + 1) j' hj']
      have harith : i + 1 + (j' : Int) = i + ((j' + 1 : Nat) : Int) := by
        push_cast; ring
      rw [harith]
      rfl

lemma bgBlock_not_in_number : ∀ (i : Int) (rs : List Raw),
    bgBlock ∉ number i rs := by
  intro i rs
  induction rs generalizing i with
  | nil => simp [number]
  | cons r rs ih =>
    simp only [number, List.mem_cons, not_or]
    exact ⟨by simp [bgBlock, rawBlock], ih (i + 1)⟩

/-- C10: `generate_gerbv_project` looks the target layer up in the file
mapping unconditionally.  When the target is absent the run fails (the
`KeyError`), and the file written so far holds exactly the context layer
blocks — no copper block and no background epilogue; when the target is
present the lookup never fails and composition completes. -/
theorem C10_unconditional_target_lookup (g : Dict) (layer : Str) (sp : Bool) :
    (dlookup g layer = none →
      generateGerbvProject g layer sp = none ∧
      (generateRun g layer sp).1 = number 0 (contextRaw g layer sp) ∧
      bgBlock ∉ (generateRun g layer sp).1) ∧
    (∀ f, dlookup g layer = some f →
      generateGerbvProject g layer sp =
        some (number 0 (contextRaw g layer sp ++ [⟨f, colorCopper, false⟩]) ++
          [bgBlock], 3)) := by
  constructor
  · intro h
    refine ⟨?_, ?_, ?_⟩
    · simp [generateGerbvProject, generateRun, h]
    · simp [generateRun, h]
    · simp only [generateRun, h]
      exact bgBlock_not_in_number 0 _
  · intro f h
    simp [generateGerbvProject, generateRun, h]

/-- Witness for `C10_unconditional_target_lookup`: a mapping holding only
`F_Cu` makes composition for target `B_Cu` fail after zero context blocks,
and composition for target `F_Cu` succeed. -/
theorem C10_witness :
    generateGerbvProject [(str "F_Cu", str "c.gtl")] (str "B_Cu") false = none ∧
    generateGerbvProject [(str "F_Cu", str "c.gtl")] (str "F_Cu") false =
      some (number 0 (contextRaw [(str "F_Cu", str "c.gtl")] (str "F_Cu") false ++
        [⟨str "c.gtl", colorCopper, false⟩]) ++ [bgBlock], 3) :=
  ⟨((C10_unconditional_target_lookup [(str "F_Cu", str "c.gtl")]
      (str "B_Cu") false).1 (by decide)).1,
   (C10_unconditional_target_lookup [(str "F_Cu", str "c.gtl")]
      (str "F_Cu") false).2 (str "c.gtl") (by decide)⟩

lemma number_content (rs : List Raw) (j : Nat)
    (hj : j < (number 0 rs).length) :
    ∃ f inv c a, (number 0 rs).get ⟨j, hj⟩ =
      Block.content (j : Int) f inv c a := by
  have hj2 : j < rs.length := by simpa [number_length] using hj
  refine ⟨(rs.get ⟨j, hj2⟩).fname, (rs.get ⟨j, hj2⟩).inv,
    scale3 (rs.get ⟨j, hj2⟩).color, (rs.get ⟨j, hj2⟩).color.2.2.2 * 256, ?_⟩
  rw [number_get rs 0 j hj, show (0 : Int) + (j : Int) = (j : Int) by omega]
  rfl

/-- C5: in every composed project the content blocks carry stacking
indices exactly `0, 1, 2, ...` in emission order, and the single trailing
block is the background pseudo-layer with stacking index `-1` and an empty
filename. -/
theorem C5_stacking_indices (g : Dict) (layer : Str) (sp : Bool)
    (blocks : List Block) (rt : Nat)
    (h : generateGerbvProject g layer sp = some (blocks, rt)) :
    ∃ cs : List Block,
      blocks = cs ++ [Block.background (-1) [] (scale3 colorBoard)] ∧
      ∀ (j : Nat) (hj : j < cs.length), ∃ f inv c a,
        cs.get ⟨j, hj⟩ = Block.content (j : Int) f inv c a := by
  rw [generateGerbvProject] at h
  split at h
  next hb =>
    rw [Option.some.injEq, Prod.mk.injEq] at h
    obtain ⟨h1, _⟩ := h
    cases hd : dlookup g layer with
    | none => simp only [generateRun, hd] at hb; exact absurd hb (by simp)
    | some f =>
      simp only [generateRun, hd] at h1
      refine ⟨number 0 (contextRaw g layer sp ++ [⟨f, colorCopper, false⟩]),
        by rw [← h1]; rfl, ?_⟩
      exact fun j hj => number_content _ j hj
  next => exact absurd h (by simp)

/-- Witness for `C5_stacking_indices` at a one-layer project. -/
theorem C5_witness :
    ∃ cs : List Block,
      number 0 ([] ++ [⟨str "c.gtl", colorCopper, false⟩]) ++ [bgBlock] =
        cs ++ [Block.background (-1) [] (scale3 colorBoard)] ∧
      ∀ (j : Nat) (hj : j < cs.length), ∃ f inv c a,
        cs.get ⟨j, hj⟩ = Block.content (j : Int) f inv c a := by
  have hgen : generateGerbvProject [(str "F_Cu", str "c.gtl")] (str "F_Cu") false =
      some (number 0 ([] ++ [⟨str "c.gtl", colorCopper, false⟩]) ++ [bgBlock], 3) := by
    decide
  exact C5_stacking_indices [(str "F_Cu", str "c.gtl")] (str "F_Cu") false _ _ hgen

/-- C2: with `Edge_Cuts`, `PTH`, `NPTH`, `F_Cu`, `F_Paste`, `F_Silkscreen`
and `F_Mask` all present, composing for target `F_Cu` with
`show_paste = True` emits exactly 7 content blocks in the order outline,
PTH drill, NPTH drill, paste, silkscreen, soldermask, target copper, then
the background epilogue; and for EVERY mapping and target, the target
copper block is the last content block emitted, directly before the
background block. -/
theorem C2_full_stack_order (g : Dict) (fE fP fN fC fPa fS fM : Str)
    (hE : dlookup g (str "Edge_Cuts") = some fE)
    (hP : dlookup g (str "PTH") = some fP)
    (hN : dlookup g (str "NPTH") = some fN)
    (hC : dlookup g (str "F_Cu") = some fC)
    (hPa : dlookup g (str "F_Paste") = some fPa)
    (hS : dlookup g (str "F_Silkscreen") = some fS)
    (hM : dlookup g (str "F_Mask") = some fM) :
    generateGerbvProject g (str "F_Cu") true =
      some ([rawBlock 0 ⟨fE, (0, 0, 0, 255), false⟩,
             rawBlock 1 ⟨fP, (0, 0, 0, 255), false⟩,
             rawBlock 2 ⟨fN, (0, 0, 0, 255), false⟩,
             rawBlock 3 ⟨fPa, colorPaste, false⟩,
             rawBlock 4 ⟨fS, colorSilkscreen, false⟩,
             rawBlock 5 ⟨fM, colorSoldermask, true⟩,
             rawBlock 6 ⟨fC, colorCopper, false⟩,
             bgBlock], 3) ∧
    (∀ (g' : Dict) (layer : Str) (sp : Bool) (blocks : List Block) (rt : Nat),
      generateGerbvProject g' layer sp = some (blocks, rt) →
      ∃ ctx f, dlookup g' layer = some f ∧
        blocks = ctx ++ [rawBlock ctx.length ⟨f, colorCopper, false⟩, bgBlock]) := by
  constructor
  · have k1 : (str "F_Cu").take 1 ++ str "_Paste" = str "F_Paste" := rfl
    have k2 : (str "F_Cu").take 1 ++ str "_Silkscreen" = str "F_Silkscreen" := rfl
    have k3 : (str "F_Cu").take 1 ++ str "_Mask" = str "F_Mask" := rfl
    simp only [generateGerbvProject, generateRun, contextRaw, optRaw,
      k1, k2, k3, hE, hP, hN, hC, hPa, hS, hM]
    norm_num [number]
  · intro g' layer sp blocks rt h
    rw [generateGerbvProject] at h
    split at h
    next hb =>
      rw [Option.some.injEq, Prod.mk.injEq] at h
      obtain ⟨h1, _⟩ := h
      cases hd : dlookup g' layer with
      | none => simp only [generateRun, hd] at hb; exact absurd hb (by simp)
      | some f =>
        simp only [generateRun, hd] at h1
        refine ⟨number 0 (contextRaw g' layer sp), f, rfl, ?_⟩
        rw [← h1, number_append, number_length]
        simp [number]
    next => exact absurd h (by simp)

/-- Witness for `C2_full_stack_order` at a concrete seven-layer mapping. -/
theorem C2_witness :
    generateGerbvProject
      [(str "Edge_Cuts", str "e"), (str "PTH", str "p"), (str "NPTH", str "n"),
       (str "F_Cu", str "c"), (str "F_Paste", str "a"),
       (str "F_Silkscreen", str "s"), (str "F_Mask", str "m")]
      (str "F_Cu") true =
      some ([rawBlock 0 ⟨str "e", (0, 0, 0, 255), false⟩,
             rawBlock 1 ⟨str "p", (0, 0, 0, 255), false⟩,
             rawBlock 2 ⟨str "n", (0, 0, 0, 255), false⟩,
             rawBlock 3 ⟨str "a", colorPaste, false⟩,
             rawBlock 4 ⟨str "s", colorSilkscreen, false⟩,
             rawBlock 5 ⟨str "m", colorSoldermask, true⟩,
             rawBlock 6 ⟨str "c", colorCopper, false⟩,
             bgBlock], 3) :=
  (C2_full_stack_order
    [(str "Edge_Cuts", str "e"), (str "PTH", str "p"), (str "NPTH", str "n"),
     (str "F_Cu", str "c"), (str "F_Paste", str "a"),
     (str "F_Silkscreen", str "s"), (str "F_Mask", str "m")]
    (str "e") (str "p") (str "n") (str "c") (str "a") (str "s") (str "m")
    (by decide) (by decide) (by decide) (by decide) (by decide) (by decide)
    (by decide)).1

/-- Whether a block carries the `(cons 'inverted #t)` line (the background
pseudo-layer never does). -/
def Block.isInv : Block → Bool
  | .content _ _ inv _ _ => inv
  | .background _ _ _ => false

def Block.fname : Block → Str
  | .content _ f _ _ _ => f
  | .background _ f _ => f

lemma filter_isInv_number : ∀ (i : Int) (rs : List Raw),
    ((number i rs).filter Block.isInv).map Block.fname =
      (rs.filter Raw.inv).map Raw.fname := by
  intro i rs
  induction rs generalizing i with
  | nil => simp [number]
  | cons r rs ih =>
    cases hr : r.inv with
    | false =>
      simp [number, List.filter_cons, rawBlock, Block.isInv, hr, ih (i + 1)]
    | true =>
      simp [number, List.filter_cons, rawBlock, Block.isInv, Block.fname, hr,
        ih (i + 1)]

lemma optRaw_filter_false (g : Dict) (k : Str) (c : Bool)
    (col : Nat × Nat × Nat × Nat) :
    (optRaw g k c col false).filter Raw.inv = [] := by
  rw [optRaw]
  cases dlookup g k with
  | none => simp
  | some f => cases c <;> simp [List.filter]

lemma optRaw_filter_mask (g : Dict) (k : Str) (col : Nat × Nat × Nat × Nat) :
    ((optRaw g k true col true).filter Raw.inv).map Raw.fname =
      (match dlookup g k with | some f => [f] | none => []) := by
  rw [optRaw]
  cases dlookup g k <;> simp [List.filter]

/-- C6: in every composed project the soldermask block for the target side
is inverted when present and emitted (i.e. when the target is a top or
bottom copper layer and the mask file exists), and no other emitted block
carries the inversion flag. -/
theorem C6_only_soldermask_inverted (g : Dict) (layer : Str) (sp : Bool)
    (blocks : List Block) (rt : Nat)
    (h : generateGerbvProject g layer sp = some (blocks, rt)) :
    (blocks.filter Block.isInv).map Block.fname =
      (if layer = str "F_Cu" ∨ layer = str "B_Cu" then
        match dlookup g (layer.take 1 ++ str "_Mask") with
        | some f => [f]
        | none => []
      else []) := by
  rw [generateGerbvProject] at h
  split at h
  next hb =>
    rw [Option.some.injEq, Prod.mk.injEq] at h
    obtain ⟨h1, _⟩ := h
    cases hd : dlookup g layer with
    | none => simp only [generateRun, hd] at hb; exact absurd hb (by simp)
    | some f =>
      simp only [generateRun, hd] at h1
      rw [← h1]
      have hbg : ([bgBlock].filter Block.isInv) = ([] : List Block) := by
        simp [bgBlock, List.filter, Block.isInv]
      have hcop : (([⟨f, colorCopper, false⟩] : List Raw).filter Raw.inv) =
          ([] : List Raw) := by
        simp [List.filter]
      rw [List.filter_append, hbg, List.append_nil, filter_isInv_number,
        List.filter_append, hcop, List.append_nil, contextRaw,
        List.filter_append, List.filter_append, List.filter_append,
        optRaw_filter_false, optRaw_filter_false, optRaw_filter_false]
      simp only [List.nil_append]
      split
      · rw [List.filter_append, List.filter_append, optRaw_filter_false,
          optRaw_filter_false]
        simp only [List.nil_append]
        exact optRaw_filter_mask g _ colorSoldermask
      · simp
  next => exact absurd h (by simp)

/-- Witness for `C6_only_soldermask_inverted`: target `F_Cu` with an
`F_Mask` file present. -/
theorem C6_witness :
    (((number 0 ([⟨str "m", colorSoldermask, true⟩] ++
        [⟨str "c", colorCopper, false⟩]) ++ [bgBlock]).filter
      Block.isInv).map Block.fname) =
      (if str "F_Cu" = str "F_Cu" ∨ str "F_Cu" = str "B_Cu" then
        match dlookup [(str "F_Cu", str "c"), (str "F_Mask", str "m")]
          ((str "F_Cu").take 1 ++ str "_Mask") with
        | some f => [f]
        | none => []
      else []) :=
  C6_only_soldermask_inverted
    [(str "F_Cu", str "c"), (str "F_Mask", str "m")] (str "F_Cu") false
    (number 0 ([⟨str "m", colorSoldermask, true⟩] ++
      [⟨str "c", colorCopper, false⟩]) ++ [bgBlock]) 3 (by decide)

lemma generate_some (g : Dict) (layer : Str) (sp : Bool)
    (blocks : List Block) (rt : Nat)
    (h : generateGerbvProject g layer sp = some (blocks, rt)) :
    ∃ f, dlookup g layer = some f ∧
      blocks = number 0 (contextRaw g layer sp ++ [⟨f, colorCopper, false⟩]) ++
        [bgBlock] ∧ rt = 3 := by
  rw [generateGerbvProject] at h
  split at h
  next hb =>
    rw [Option.some.injEq, Prod.mk.injEq] at h
    obtain ⟨h1, h2⟩ := h
    cases hd : dlookup g layer with
    | none => simp only [generateRun, hd] at hb; exact absurd hb (by simp)
    | some f =>
      simp only [generateRun, hd] at h1
      exact ⟨f, rfl, h1.symm, h2.symm⟩
  next => exact absurd h (by simp)

/-- Erase the stacking index of a block (compare block sequences up to the
renumbering that removing a block induces). -/
def noIdx : Block → Block
  | .content _ f inv c a => .content 0 f inv c a
  | .background _ f c => .background 0 f c

lemma map_noIdx_number : ∀ (i : Int) (rs : List Raw),
    (number i rs).map noIdx = rs.map (rawBlock 0) := by
  intro i rs
  induction rs generalizing i with
  | nil => simp [number]
  | cons r rs ih => simp [number, ih (i + 1), rawBlock, noIdx]

lemma optRaw_cond_false (g : Dict) (k : Str) (col : Nat × Nat × Nat × Nat)
    (inv : Bool) : optRaw g k false col inv = [] := by
  rw [optRaw]
  cases dlookup g k <;> simp

/-- C7 counterexample.  With `F_Cu`, `F_Paste` and `F_Silkscreen` present,
the `show_paste=False` composition is NOT the `show_paste=True`
composition with the paste block removed: removing the paste block leaves
the silkscreen and copper blocks with stacking indices 1 and 2, while the
`show_paste=False` run numbers them 0 and 1. -/
theorem C7_counterexample :
    generateGerbvProject
        [(str "F_Cu", str "c"), (str "F_Paste", str "p"),
         (str "F_Silkscreen", str "s")] (str "F_Cu") true =
      some ([rawBlock 0 ⟨str "p", colorPaste, false⟩,
             rawBlock 1 ⟨str "s", colorSilkscreen, false⟩,
             rawBlock 2 ⟨str "c", colorCopper, false⟩, bgBlock], 3) ∧
    generateGerbvProject
        [(str "F_Cu", str "c"), (str "F_Paste", str "p"),
         (str "F_Silkscreen", str "s")] (str "F_Cu") false =
      some ([rawBlock 0 ⟨str "s", colorSilkscreen, false⟩,
             rawBlock 1 ⟨str "c", colorCopper, false⟩, bgBlock], 3) ∧
    [rawBlock 1 ⟨str "s", colorSilkscreen, false⟩,
     rawBlock 2 ⟨str "c", colorCopper, false⟩, bgBlock] ≠
      [rawBlock 0 ⟨str "s", colorSilkscreen, false⟩,
       rawBlock 1 ⟨str "c", colorCopper, false⟩, bgBlock] :=
  ⟨by decide, by decide, by decide⟩

/-- C7 (amended): composing with `show_paste=False` emits no paste block
even when the paste file exists, and the emitted block sequence is the
`show_paste=True` sequence with the paste block removed, compared UP TO
STACKING INDICES (the blocks after the removed paste block are renumbered
consecutively). -/
theorem C7_paste_flag (g : Dict) (layer : Str) (bt bf : List Block)
    (rt rt' : Nat)
    (ht : generateGerbvProject g layer true = some (bt, rt))
    (hf : generateGerbvProject g layer false = some (bf, rt')) :
    ∃ pre post pasteOpt,
      bt.map noIdx = pre ++ pasteOpt ++ post ∧
      bf.map noIdx = pre ++ post ∧
      pasteOpt = (if layer = str "F_Cu" ∨ layer = str "B_Cu" then
          match dlookup g (layer.take 1 ++ str "_Paste") with
          | some f =>
            [Block.content 0 f false (scale3 colorPaste) (colorPaste.2.2.2 * 256)]
          | none => []
        else []) := by
  obtain ⟨f, hd, hbt, _⟩ := generate_some _ _ _ _ _ ht
  obtain ⟨f', hd', hbf, _⟩ := generate_some _ _ _ _ _ hf
  rw [hd] at hd'
  injection hd' with hff
  subst hff
  subst hbt
  subst hbf
  by_cases htop : layer = str "F_Cu" ∨ layer = str "B_Cu"
  · refine ⟨(optRaw g (str "Edge_Cuts") true (0, 0, 0, 255) false ++
        optRaw g (str "PTH") true (0, 0, 0, 255) false ++
        optRaw g (str "NPTH") true (0, 0, 0, 255) false).map (rawBlock 0),
      (optRaw g (layer.take 1 ++ str "_Silkscreen") true colorSilkscreen false ++
        optRaw g (layer.take 1 ++ str "_Mask") true colorSoldermask true).map
        (rawBlock 0) ++ [rawBlock 0 ⟨f, colorCopper, false⟩, noIdx bgBlock],
      (optRaw g (layer.take 1 ++ str "_Paste") true colorPaste false).map
        (rawBlock 0), ?_, ?_, ?_⟩
    · rw [List.map_append, map_noIdx_number, contextRaw, if_pos htop]
      simp [List.map_append, List.append_assoc, noIdx]
    · rw [List.map_append, map_noIdx_number, contextRaw, if_pos htop,
        optRaw_cond_false]
      simp [List.map_append, List.append_assoc, noIdx]
    · rw [if_pos htop, optRaw]
      cases dlookup g (layer.take 1 ++ str "_Paste") <;> simp [rawBlock]
  · refine ⟨(optRaw g (str "Edge_Cuts") true (0, 0, 0, 255) false ++
        optRaw g (str "PTH") true (0, 0, 0, 255) false ++
        optRaw g (str "NPTH") true (0, 0, 0, 255) false).map (rawBlock 0),
      [rawBlock 0 ⟨f, colorCopper, false⟩, noIdx bgBlock], [], ?_, ?_, ?_⟩
    · rw [List.map_append, map_noIdx_number, contextRaw, if_neg htop]
      simp [List.map_append, List.append_assoc, noIdx]
    · rw [List.map_append, map_noIdx_number, contextRaw, if_neg htop]
      simp [List.map_append, List.append_assoc, noIdx]
    · rw [if_neg htop]

/-- Witness for `C7_paste_flag` at the counterexample mapping. -/
theorem C7_witness :
    ∃ pre post pasteOpt,
      ([rawBlock 0 ⟨str "p", colorPaste, false⟩,
        rawBlock 1 ⟨str "s", colorSilkscreen, false⟩,
        rawBlock 2 ⟨str "c", colorCopper, false⟩, bgBlock].map noIdx) =
          pre ++ pasteOpt ++ post ∧
      ([rawBlock 0 ⟨str "s", colorSilkscreen, false⟩,
        rawBlock 1 ⟨str "c", colorCopper, false⟩, bgBlock].map noIdx) =
          pre ++ post ∧
      pasteOpt = (if str "F_Cu" = str "F_Cu" ∨ str "F_Cu" = str "B_Cu" then
          match dlookup [(str "F_Cu", str "c"), (str "F_Paste", str "p"),
              (str "F_Silkscreen", str "s")]
            ((str "F_Cu").take 1 ++ str "_Paste") with
          | some f =>
            [Block.content 0 f false (scale3 colorPaste) (colorPaste.2.2.2 * 256)]
          | none => []
        else []) :=
  C7_paste_flag
    [(str "F_Cu", str "c"), (str "F_Paste", str "p"),
     (str "F_Silkscreen", str "s")] (str "F_Cu")
    [rawBlock 0 ⟨str "p", colorPaste, false⟩,
     rawBlock 1 ⟨str "s", colorSilkscreen, false⟩,
     rawBlock 2 ⟨str "c", colorCopper, false⟩, bgBlock]
    [rawBlock 0 ⟨str "s", colorSilkscreen, false⟩,
     rawBlock 1 ⟨str "c", colorCopper, false⟩, bgBlock] 3 3
    (by decide) (by decide)

/-- Distinguishes the per-job progress lines from error lines. -/
def isGenLine (s : Str) : Bool := (str "Generating").isPrefixOf s

lemma isGenLine_genMsg (img : Str) : isGenLine (genMsg img) = true := by
  rw [isGenLine, List.isPrefixOf_iff_prefix, genMsg,
    show str "Generating '" = str "Generating" ++ str " '" from rfl,
    List.append_assoc, List.append_assoc]
  exact List.prefix_append _ _

lemma isGenLine_errMsg (c : Int) : isGenLine (errMsg c) = false := rfl

lemma renderLog_gen_count (a : RenderArgs) (ec : Str → Int) :
    ∀ jobs : List Str, (renderLog a ec jobs).countP isGenLine = jobs.length := by
  intro jobs
  induction jobs with
  | nil => rfl
  | cons j js ih =>
    have hstep : renderLog a ec (j :: js) =
        (genMsg (imgFile a j) :: (if ec j ≠ 0 then [errMsg (ec j)] else [])) ++
          renderLog a ec js := rfl
    rw [hstep, List.countP_append, List.countP_cons]
    by_cases hc : ec j = 0
    · simp [hc, isGenLine_genMsg, ih]
      omega
    · simp [hc, isGenLine_genMsg, isGenLine_errMsg, ih, List.countP_cons]
      omega

/-- C9: every render job whose renderer exit code is nonzero contributes a
logged error line naming that exit code; every job contributes its
progress line regardless of earlier failures (the loop never aborts); and
the process exit code is 0 no matter how many jobs failed. -/
theorem C9_render_failure_semantics (a : RenderArgs) (exitCode : Str → Int)
    (jobs : List Str) :
    (∀ gvp ∈ jobs, exitCode gvp ≠ 0 →
      errMsg (exitCode gvp) ∈ renderLog a exitCode jobs) ∧
    (renderLog a exitCode jobs).countP isGenLine = jobs.length ∧
    mainExitCode a exitCode jobs = 0 := by
  refine ⟨?_, renderLog_gen_count a exitCode jobs, rfl⟩
  intro gvp hm hne
  rw [renderLog]
  refine List.mem_flatMap.mpr ⟨gvp, hm, ?_⟩
  simp [hne]

/-- Witness for `C9_render_failure_semantics`: one job failing with exit
code 2 produces the corresponding error line. -/
theorem C9_witness :
    errMsg 2 ∈ renderLog ⟨str "png", 300, none, str "/usr/local/bin/gerbv"⟩
      (fun _ => 2) [str "a-top.gvp"] :=
  (C9_render_failure_semantics ⟨str "png", 300, none, str "/usr/local/bin/gerbv"⟩
    (fun _ => 2) [str "a-top.gvp"]).1 (str "a-top.gvp") (by simp) (by decide)

/-! ## Lemmas about the classifier's directory scan -/

lemma strLe_total : ∀ a b : Str, strLe a b = true ∨ strLe b a = true := by
  intro a
  induction a with
  | nil => intro b; left; rfl
  | cons x s ih =>
    intro b
    cases b with
    | nil => right; rfl
    | cons y t =>
      rcases lt_trichotomy x y with h | h | h
      · left; simp [strLe, h]
      · subst h
        rcases ih t with h' | h'
        · left; simp [strLe, lt_irrefl, h']
        · right; simp [strLe, lt_irrefl, h']
      · right; simp [strLe, h]

lemma strLe_trans : ∀ a b c : Str, strLe a b = true → strLe b c = true →
    strLe a c = true := by
  intro a
  induction a with
  | nil => intro b c _ _; rfl
  | cons x s ih =>
    intro b c hab hbc
    cases b with
    | nil => simp [strLe] at hab
    | cons y t =>
      cases c with
      | nil => simp [strLe] at hbc
      | cons z u =>
        rw [strLe] at hab hbc ⊢
        rcases lt_trichotomy x y with h1 | h1 | h1
        · rcases lt_trichotomy y z with h2 | h2 | h2
          · simp [lt_trans h1 h2]
          · subst h2; simp [h1]
          · rw [if_neg (asymm h2), if_pos h2] at hbc
            exact absurd hbc (by simp)
        · subst h1
          rw [if_neg (lt_irrefl x), if_neg (lt_irrefl x)] at hab
          rcases lt_trichotomy x z with h2 | h2 | h2
          · simp [h2]
          · subst h2
            rw [if_neg (lt_irrefl x), if_neg (lt_irrefl x)] at hbc ⊢
            exact ih t u hab hbc
          · rw [if_neg (asymm h2), if_pos h2] at hbc
            exact absurd hbc (by simp)
        · rw [if_neg (asymm h1), if_pos h1] at hab
          exact absurd hab (by simp)

lemma strLe_antisymm : ∀ a b : Str, strLe a b = true → strLe b a = true →
    a = b := by
  intro a
  induction a with
  | nil =>
    intro b _ hba
    cases b with
    | nil => rfl
    | cons y t => simp [strLe] at hba
  | cons x s ih =>
    intro b hab hba
    cases b with
    | nil => simp [strLe] at hab
    | cons y t =>
      rw [strLe] at hab hba
      rcases lt_trichotomy x y with h1 | h1 | h1
      · rw [if_neg (asymm h1), if_pos h1] at hba
        exact absurd hba (by simp)
      · subst h1
        rw [if_neg (lt_irrefl x), if_neg (lt_irrefl x)] at hab hba
        rw [ih t hab hba]
      · rw [if_neg (asymm h1), if_pos h1] at hab
        exact absurd hab (by simp)

instance : IsTotal Str strLeP := ⟨strLe_total⟩
instance : IsTrans Str strLeP := ⟨strLe_trans⟩
instance : IsAntisymm Str strLeP := ⟨strLe_antisymm⟩

lemma dlookup_dinsert_self {α : Type} (d : List (Str × α)) (k : Str) (v : α) :
    dlookup (dinsert d k v) k = some v := by
  induction d with
  | nil => simp [dinsert, dlookup]
  | cons kv t ih =>
    obtain ⟨k', v'⟩ := kv
    by_cases hk : k' = k
    · subst hk; simp [dinsert, dlookup]
    · simp [dinsert, dlookup, hk, ih]

lemma dlookup_dinsert_other {α : Type} (d : List (Str × α)) (k k' : Str)
    (v : α) (hne : k' ≠ k) :
    dlookup (dinsert d k v) k' = dlookup d k' := by
  induction d with
  | nil => simp [dinsert, dlookup, Ne.symm hne]
  | cons kv t ih =>
    obtain ⟨k0, v0⟩ := kv
    by_cases hk : k0 = k
    · subst hk
      simp [dinsert, dlookup, Ne.symm hne]
    · simp [dinsert, dlookup, hk, ih]

/-- Nested lookup `gerbers[p][l]`. -/
def dlookup2 (g : Dict2) (p l : Str) : Option Str :=
  match dlookup g p with
  | some m => dlookup m l
  | none => none

lemma dlookup2_storeFile_self (g : Dict2) (p l v : Str) :
    dlookup2 (storeFile g p l v) p l = some v := by
  rw [dlookup2, storeFile, dlookup_dinsert_self]
  exact dlookup_dinsert_self _ _ _

lemma dlookup2_storeFile_other (g : Dict2) (p0 l0 v p l : Str)
    (h : ¬(p = p0 ∧ l = l0)) :
    dlookup2 (storeFile g p0 l0 v) p l = dlookup2 g p l := by
  by_cases hp : p = p0
  · subst hp
    have hl : l ≠ l0 := fun hc => h ⟨rfl, hc⟩
    cases hm : dlookup g p with
    | none =>
      simp only [dlookup2, storeFile, hm, dlookup_dinsert_self,
        dlookup_dinsert_other _ _ _ _ hl]
      rfl
    | some m =>
      simp only [dlookup2, storeFile, hm, dlookup_dinsert_self,
        dlookup_dinsert_other _ _ _ _ hl]
  · simp only [dlookup2, storeFile, dlookup_dinsert_other _ _ _ _ hp]

/-- Whether the classifier files `f` under the key pair `(p, l)`. -/
def acceptsAs (p l f : Str) : Bool :=
  match classifyFile f with
  | some (p', l') => p' == p && l' == l
  | none => false

lemma getLast?_cons_or {α : Type} (a : α) (t : List α) :
    (a :: t).getLast? = t.getLast?.or (some a) := by
  rw [show a :: t = [a] ++ t from rfl, List.getLast?_append]; rfl

lemma strLe_refl : ∀ a : Str, strLe a a = true := by
  intro a
  induction a with
  | nil => rfl
  | cons x s ih => simp [strLe, lt_irrefl, ih]

/-- Processing the (sorted) listing leaves, under each `(project, layer)`
pair, the path of the LAST listed file the classifier files under that
pair. -/
lemma processFiles_lookup2 (dir p l : Str) :
    ∀ (fs : List Str) (g : Dict2),
    dlookup2 (processFiles dir g fs) p l =
      (match (fs.filter (acceptsAs p l)).getLast? with
       | some f => some (pathJoin dir f)
       | none => dlookup2 g p l) := by
  intro fs
  induction fs with
  | nil => intro g; rfl
  | cons f fs ih =>
    intro g
    cases hcf : classifyFile f with
    | none =>
      have hacc : acceptsAs p l f = false := by rw [acceptsAs, hcf]
      have hstep : processFiles dir g (f :: fs) = processFiles dir g fs := by
        rw [processFiles, hcf]
      rw [hstep, ih g, List.filter_cons, hacc]
      simp only [Bool.false_eq_true, if_false]
    | some pl =>
      obtain ⟨p0, l0⟩ := pl
      have hstep : processFiles dir g (f :: fs) =
          processFiles dir (storeFile g p0 l0 (pathJoin dir f)) fs := by
        rw [processFiles, hcf]
      rw [hstep, ih, List.filter_cons]
      by_cases hm : p0 = p ∧ l0 = l
      · have hacc : acceptsAs p l f = true := by
          rw [acceptsAs, hcf]; simp [hm.1, hm.2]
        rw [hacc, if_pos rfl, getLast?_cons_or]
        cases hlast : (fs.filter (acceptsAs p l)).getLast? with
        | some f' => simp [Option.or]
        | none =>
          simp only [Option.or]
          obtain ⟨hp, hl⟩ := hm
          subst hp; subst hl
          exact dlookup2_storeFile_self g p0 l0 (pathJoin dir f)
      · have hacc : acceptsAs p l f = false := by
          rw [acceptsAs, hcf]
          by_cases h1 : p0 = p
          · have h2 : l0 ≠ l := fun hc => hm ⟨h1, hc⟩
            simp [h1, h2]
          · simp [h1]
        rw [hacc]
        simp only [Bool.false_eq_true, if_false]
        cases hlast : (fs.filter (acceptsAs p l)).getLast? with
        | some f' => rfl
        | none =>
          simp only []
          exact dlookup2_storeFile_other g p0 l0 (pathJoin dir f) p l
            (fun hc => hm ⟨hc.1.symm, hc.2.symm⟩)

lemma sorted_le_getLast : ∀ (l : List Str), List.Sorted strLeP l →
    ∀ f, l.getLast? = some f → ∀ x ∈ l, strLe x f = true := by
  intro l
  induction l with
  | nil => intro _ f hf; simp at hf
  | cons a t ih =>
    intro hs f hf x hx
    rw [getLast?_cons_or] at hf
    rw [List.sorted_cons] at hs
    obtain ⟨ha, hs'⟩ := hs
    cases ht : t.getLast? with
    | none =>
      rw [ht] at hf
      simp only [Option.or, Option.some.injEq] at hf
      have ht' : t = [] := by
        cases t with
        | nil => rfl
        | cons b u =>
          rw [getLast?_cons_or] at ht
          cases hu : u.getLast? with
          | none => rw [hu] at ht; simp at ht
          | some w => rw [hu] at ht; simp at ht
      subst ht'
      rw [List.mem_singleton] at hx
      subst hx
      rw [← hf]
      exact strLe_refl x
    | some f' =>
      rw [ht] at hf
      simp only [Option.or, Option.some.injEq] at hf
      subst hf
      rcases List.mem_cons.mp hx with rfl | hx'
      · exact ha f' (List.mem_of_mem_getLast? ht)
      · exact ih hs' f' ht x hx'

/-- C8: under each `(project, layer)` pair the classifier's result holds
exactly one path — the one of the LAST file, in sorted (lexicographic)
order, that classifies to that pair: entries are visited in sorted order
and each insertion overwrites the previous entry for its pair. -/
theorem C8_duplicate_last_wins (dir : Str) (listing : List Str) (p l : Str) :
    dlookup2 (findGerberFiles dir listing) p l =
      (match ((sortStrs listing).filter (acceptsAs p l)).getLast? with
       | some f => some (pathJoin dir f)
       | none => none) ∧
    ∀ f, ((sortStrs listing).filter (acceptsAs p l)).getLast? = some f →
      f ∈ listing ∧ acceptsAs p l f = true ∧
      ∀ f' ∈ listing, acceptsAs p l f' = true → strLe f' f = true := by
  constructor
  · rw [findGerberFiles, processFiles_lookup2]
    cases ((sortStrs listing).filter (acceptsAs p l)).getLast? <;> rfl
  · intro f hf
    have hsort : List.Sorted strLeP (sortStrs listing) :=
      List.sorted_insertionSort strLeP listing
    have hfil : List.Sorted strLeP ((sortStrs listing).filter (acceptsAs p l)) :=
      hsort.filter _
    have hmem := List.mem_filter.mp (List.mem_of_mem_getLast? hf)
    refine ⟨(List.perm_insertionSort strLeP listing).mem_iff.mp hmem.1,
      hmem.2, ?_⟩
    intro f' hf' hacc'
    apply sorted_le_getLast _ hfil f hf
    rw [List.mem_filter]
    exact ⟨(List.perm_insertionSort strLeP listing).mem_iff.mpr hf', hacc'⟩

/-- Witness for `C8_duplicate_last_wins`: two filenames classifying to the
same `(proj, F_Cu)` pair; the lexicographically larger `.gts` file is the
retained one. -/
theorem C8_witness :
    str "proj-F_Cu.gts" ∈ [str "proj-F_Cu.gts", str "proj-F_Cu.gtl"] ∧
    acceptsAs (str "proj") (str "F_Cu") (str "proj-F_Cu.gts") = true ∧
    ∀ f' ∈ [str "proj-F_Cu.gts", str "proj-F_Cu.gtl"],
      acceptsAs (str "proj") (str "F_Cu") f' = true →
      strLe f' (str "proj-F_Cu.gts") = true :=
  (C8_duplicate_last_wins (str ".")
    [str "proj-F_Cu.gts", str "proj-F_Cu.gtl"]
    (str "proj") (str "F_Cu")).2 (str "proj-F_Cu.gts") (by decide)

/-! ## Round trip: composed `.gvp` files are never re-classified -/

lemma allword_gvp_suffix (X e pre : Str)
    (heq : X ++ e = pre ++ str ".gvp") (hw : e.all isWord = true) :
    e = [] ∨ e = ['p'] ∨ e = ['v', 'p'] ∨ e = ['g', 'v', 'p'] := by
  have hlen : X.length + e.length = pre.length + 4 := by
    have := congrArg List.length heq
    simpa using this
  have hdrop : e = (pre ++ str ".gvp").drop X.length := by
    rw [← heq, List.drop_left]
  by_cases hle : X.length ≤ pre.length
  · exfalso
    rw [List.drop_append_of_le_length hle] at hdrop
    have hdot : '.' ∈ e := by
      rw [hdrop]
      exact List.mem_append.mpr (Or.inr (by decide))
    rw [List.all_eq_true] at hw
    have := hw '.' hdot
    simp [isWord] at this
  · have hk : ∃ k, X.length = pre.length + k ∧ k ≤ 4 := by
      refine ⟨X.length - pre.length, by omega, by omega⟩
    obtain ⟨k, hX, hk4⟩ := hk
    rw [hX, List.drop_append] at hdrop
    interval_cases k
    · exfalso
      rw [hdrop] at hw
      simp [str, isWord] at hw
    · right; right; right; rw [hdrop]; rfl
    · right; right; left; rw [hdrop]; rfl
    · right; left; rw [hdrop]; rfl
    · left; rw [hdrop]; rfl

/-- Any filename ending in `.gvp` is rejected by the classifier: a
successful match forces the extension to be an all-word suffix, i.e. one
of `p`, `vp`, `gvp`, and none of these passes the extension whitelist. -/
lemma classify_gvp_none (pre : Str) :
    classifyFile (pre ++ str ".gvp") = none := by
  cases hcl : classifyFile (pre ++ str ".gvp") with
  | none => rfl
  | some pl =>
    exfalso
    obtain ⟨p, l⟩ := pl
    obtain ⟨e, ⟨c, hf, _, _, hne, hew⟩, hwhite⟩ :=
      classifyFile_sound _ p l hcl
    have hsplit : (p ++ '-' :: (l ++ [c])) ++ e = pre ++ str ".gvp" := by
      rw [hf]; simp
    rcases allword_gvp_suffix _ _ _ hsplit hew with h | h | h | h
    · exact hne h
    · rw [h] at hwhite; simp [extWhite, Char.toLower] at hwhite
    · rw [h] at hwhite; simp [extWhite, Char.toLower] at hwhite
    · rw [h] at hwhite; simp [extWhite, Char.toLower] at hwhite

lemma processFiles_filter (dir : Str) :
    ∀ (fs : List Str) (g : Dict2),
    processFiles dir g fs =
      processFiles dir g (fs.filter fun f => (classifyFile f).isSome) := by
  intro fs
  induction fs with
  | nil => intro g; rfl
  | cons f fs ih =>
    intro g
    cases hcf : classifyFile f with
    | none =>
      rw [List.filter_cons, show ((classifyFile f).isSome = false) by rw [hcf]; rfl]
      rw [show processFiles dir g (f :: fs) = processFiles dir g fs from
        by rw [processFiles, hcf]]
      simp only [Bool.false_eq_true, if_false]
      exact ih g
    | some pl =>
      obtain ⟨p0, l0⟩ := pl
      rw [List.filter_cons, show ((classifyFile f).isSome = true) by rw [hcf]; rfl]
      simp only [if_true]
      rw [show processFiles dir g (f :: fs) =
          processFiles dir (storeFile g p0 l0 (pathJoin dir f)) fs from
        by rw [processFiles, hcf]]
      rw [show processFiles dir g
            (f :: fs.filter fun f => (classifyFile f).isSome) =
          processFiles dir (storeFile g p0 l0 (pathJoin dir f))
            (fs.filter fun f => (classifyFile f).isSome) from
        by rw [processFiles, hcf]]
      exact ih _

lemma findGerberFiles_append_rejected (dir : Str) (l1 extra : List Str)
    (hrej : ∀ f ∈ extra, classifyFile f = none) :
    findGerberFiles dir (l1 ++ extra) = findGerberFiles dir l1 := by
  rw [findGerberFiles, findGerberFiles, processFiles_filter dir (sortStrs (l1 ++ extra)),
    processFiles_filter dir (sortStrs l1)]
  congr 1
  have hextra : extra.filter (fun f => (classifyFile f).isSome) = [] := by
    rw [List.filter_eq_nil_iff]
    intro f hf
    rw [hrej f hf]
    simp
  have hperm1 : List.Perm
      ((sortStrs (l1 ++ extra)).filter (fun f => (classifyFile f).isSome))
      (l1.filter (fun f => (classifyFile f).isSome)) := by
    refine ((List.perm_insertionSort strLeP (l1 ++ extra)).filter _).trans ?_
    rw [List.filter_append, hextra, List.append_nil]
  have hperm2 : List.Perm
      ((sortStrs l1).filter (fun f => (classifyFile f).isSome))
      (l1.filter (fun f => (classifyFile f).isSome)) :=
    (List.perm_insertionSort strLeP l1).filter _
  exact List.eq_of_perm_of_sorted (hperm1.trans hperm2.symm)
    ((List.sorted_insertionSort strLeP (l1 ++ extra)).filter _)
    ((List.sorted_insertionSort strLeP l1).filter _)

lemma gvpJobsFor_snd (pr : Str) (g : Dict) (j : Str × Str)
    (hj : j ∈ gvpJobsFor pr g) : ∃ x, j.2 = gvpName pr x := by
  rw [gvpJobsFor] at hj
  rcases List.mem_append.mp hj with hj' | hj'
  · rcases List.mem_append.mp hj' with hj'' | hj''
    · refine ⟨str "top", ?_⟩
      split at hj'' <;> simp at hj''
      rw [hj'']
    · refine ⟨str "bot", ?_⟩
      split at hj'' <;> simp at hj''
      rw [hj'']
  · obtain ⟨i, _, hopt⟩ := List.mem_filterMap.mp hj'
    refine ⟨str "in" ++ natStr (i - 1), ?_⟩
    split at hopt
    · rw [Option.some.injEq] at hopt
      rw [← hopt]
    · exact absurd hopt (by simp)

lemma gvpFiles_endsWith (all : Dict2) (f : Str) (hf : f ∈ gvpFiles all) :
    ∃ pre, f = pre ++ str ".gvp" := by
  rw [gvpFiles] at hf
  obtain ⟨pg, _, hmem⟩ := List.mem_flatMap.mp hf
  obtain ⟨j, hj, hsnd⟩ := List.mem_map.mp hmem
  obtain ⟨x, hx⟩ := gvpJobsFor_snd pg.1 pg.2 j hj
  refine ⟨pg.1 ++ '-' :: x, ?_⟩
  rw [← hsnd, hx, gvpName]
  simp

/-- C4: adding the composed `.gvp` files to the directory listing and
re-running the classifier yields the identical project/layer mapping (so
in particular the same set of `(project, layer)` pairs), because every
filename ending in `.gvp` is rejected by the extension whitelist. -/
theorem C4_roundtrip_reclassify (dir : Str) (listing : List Str) :
    findGerberFiles dir
        (listing ++ gvpFiles (findGerberFiles dir listing)) =
      findGerberFiles dir listing ∧
    ∀ pre : Str, classifyFile (pre ++ str ".gvp") = none := by
  refine ⟨?_, classify_gvp_none⟩
  apply findGerberFiles_append_rejected
  intro f hf
  obtain ⟨pre, hpre⟩ := gvpFiles_endsWith _ f hf
  rw [hpre]
  exact classify_gvp_none pre

/-! ## Which copper layers `main` inspects -/

/-- The copper layer identifiers `main` looks for, with their display
names: top, bottom, and the inner layers `In1_Cu` .. `In30_Cu` scanned by
`for i in range(2, 32)`. -/
def copperCands : List (Str × Str) :=
  [(str "F_Cu", str "top"), (str "B_Cu", str "bot")] ++
  (List.range' 2 30).map (fun i =>
    (str "In" ++ natStr (i - 1) ++ str "_Cu", str "in" ++ natStr (i - 1)))

lemma gvpJobsFor_eq (pr : Str) (g : Dict) :
    gvpJobsFor pr g = copperCands.filterMap (fun c =>
      if (dlookup g c.1).isSome then some (c.1, gvpName pr c.2) else none) := by
  rw [gvpJobsFor, copperCands, List.filterMap_append]
  congr 1
  all_goals rw [show [(str "F_Cu", str "top"), (str "B_Cu", str "bot")] =
      [(str "F_Cu", str "top")] ++ [(str "B_Cu", str "bot")] from rfl,
    List.filterMap_append]
  all_goals congr 1
  all_goals simp only [List.filterMap_cons, List.filterMap_nil]
  all_goals split <;> rfl

lemma dlookup_isSome_iff_mem {α : Type} (d : List (Str × α)) (k : Str) :
    (dlookup d k).isSome = true ↔ k ∈ d.map Prod.fst := by
  induction d with
  | nil =>
    constructor
    · intro h; exact Bool.noConfusion h
    · intro h; exact absurd h (List.not_mem_nil k)
  | cons kv t ih =>
    obtain ⟨k0, v0⟩ := kv
    by_cases hk : k0 = k
    · subst hk
      rw [show dlookup ((k0, v0) :: t) k0 = some v0 from
        by rw [dlookup, if_pos rfl], List.map_cons]
      constructor
      · intro _; exact List.mem_cons_self _ _
      · intro _; rfl
    · rw [show dlookup ((k0, v0) :: t) k = dlookup t k from
        by rw [dlookup, if_neg hk], ih, List.map_cons]
      constructor
      · exact fun h => List.mem_cons.mpr (Or.inr h)
      · intro h
        rcases List.mem_cons.mp h with h' | h'
        · exact absurd h'.symm hk
        · exact h'

lemma dlookup_of_mem_nodup {α : Type} (d : List (Str × α)) (k : Str) (v : α)
    (hnd : (d.map Prod.fst).Nodup) (hm : (k, v) ∈ d) :
    dlookup d k = some v := by
  induction d with
  | nil => exact absurd hm (List.not_mem_nil _)
  | cons kv t ih =>
    obtain ⟨k0, v0⟩ := kv
    rw [List.map_cons, List.nodup_cons] at hnd
    rcases List.mem_cons.mp hm with heq | hm'
    · rw [Prod.mk.injEq] at heq
      obtain ⟨h1, h2⟩ := heq
      subst h1; subst h2
      simp [dlookup]
    · have hk : k0 ≠ k := by
        intro hc
        subst hc
        exact hnd.1 (List.mem_map.mpr ⟨(k0, v), hm', rfl⟩)
      simp [dlookup, hk, ih hnd.2 hm']

lemma countP_jobs_key (g : Dict) (pr lid : Str) :
    ∀ (cands : List (Str × Str)), (cands.map Prod.fst).Nodup →
    ((cands.filterMap fun c =>
        if (dlookup g c.1).isSome then some (c.1, gvpName pr c.2)
        else none).countP fun j => j.1 == lid) =
      (if lid ∈ cands.map Prod.fst ∧ (dlookup g lid).isSome = true
       then 1 else 0) := by
  intro cands
  induction cands with
  | nil => intro _; simp
  | cons c cs ih =>
    intro hnd
    rw [List.map_cons, List.nodup_cons] at hnd
    rw [List.filterMap_cons]
    by_cases hpres : (dlookup g c.1).isSome = true
    · rw [if_pos hpres]
      by_cases hlid : c.1 = lid
      · subst hlid
        rw [List.countP_cons, ih hnd.2, if_neg (fun hc => hnd.1 hc.1)]
        simp [hpres]
      · rw [List.countP_cons, ih hnd.2]
        have hb : (((c.1, gvpName pr c.2).1 == lid) = false) := by
          simp [hlid]
        rw [hb]
        have hiff : (lid ∈ (c :: cs).map Prod.fst ∧
            (dlookup g lid).isSome = true) ↔
            (lid ∈ cs.map Prod.fst ∧ (dlookup g lid).isSome = true) := by
          simp [List.mem_cons, Ne.symm hlid]
        rw [if_congr hiff rfl rfl]
        simp
    · rw [if_neg hpres, ih hnd.2]
      by_cases hlid : c.1 = lid
      · subst hlid
        rw [if_neg (fun hc => hpres hc.2), if_neg (fun hc => hpres hc.2)]
      · have hiff : (lid ∈ (c :: cs).map Prod.fst ∧
            (dlookup g lid).isSome = true) ↔
            (lid ∈ cs.map Prod.fst ∧ (dlookup g lid).isSome = true) := by
          simp [List.mem_cons, Ne.symm hlid]
        rw [if_congr hiff rfl rfl]

lemma mem_dinsert_keys {α : Type} : ∀ (d : List (Str × α)) (k : Str) (v : α)
    (a : Str), a ∈ (dinsert d k v).map Prod.fst → a = k ∨ a ∈ d.map Prod.fst := by
  intro d k v a
  induction d with
  | nil =>
    intro h
    exact Or.inl (List.mem_singleton.mp h)
  | cons kv t ih =>
    obtain ⟨k0, v0⟩ := kv
    by_cases hk : k0 = k
    · intro h
      rw [show dinsert ((k0, v0) :: t) k v = (k, v) :: t from
        by rw [dinsert, if_pos hk], List.map_cons] at h
      rcases List.mem_cons.mp h with h' | h'
      · exact Or.inl h'
      · exact Or.inr (by rw [List.map_cons]; exact List.mem_cons.mpr (Or.inr h'))
    · intro h
      rw [show dinsert ((k0, v0) :: t) k v = (k0, v0) :: dinsert t k v from
        by rw [dinsert, if_neg hk], List.map_cons] at h
      rcases List.mem_cons.mp h with h' | h'
      · exact Or.inr (by rw [List.map_cons]; exact List.mem_cons.mpr (Or.inl h'))
      · rcases ih h' with h'' | h''
        · exact Or.inl h''
        · exact Or.inr (by rw [List.map_cons]; exact List.mem_cons.mpr (Or.inr h''))

lemma dinsert_keys_nodup {α : Type} : ∀ (d : List (Str × α)) (k : Str) (v : α),
    (d.map Prod.fst).Nodup → ((dinsert d k v).map Prod.fst).Nodup := by
  intro d
  induction d with
  | nil => intro k v _; exact List.nodup_singleton k
  | cons kv t ih =>
    intro k v hnd
    obtain ⟨k0, v0⟩ := kv
    rw [List.map_cons, List.nodup_cons] at hnd
    by_cases hk : k0 = k
    · rw [show dinsert ((k0, v0) :: t) k v = (k, v) :: t from
        by rw [dinsert, if_pos hk], List.map_cons, List.nodup_cons]
      subst hk
      exact ⟨hnd.1, hnd.2⟩
    · rw [show dinsert ((k0, v0) :: t) k v = (k0, v0) :: dinsert t k v from
        by rw [dinsert, if_neg hk], List.map_cons, List.nodup_cons]
      refine ⟨?_, ih k v hnd.2⟩
      intro hcon
      rcases mem_dinsert_keys t k v k0 hcon with h' | h'
      · exact hk h'
      · exact hnd.1 h'

lemma processFiles_keys_nodup (dir : Str) :
    ∀ (fs : List Str) (g : Dict2), (g.map Prod.fst).Nodup →
    ((processFiles dir g fs).map Prod.fst).Nodup := by
  intro fs
  induction fs with
  | nil => intro g h; exact h
  | cons f fs ih =>
    intro g hg
    cases hcf : classifyFile f with
    | none =>
      rw [show processFiles dir g (f :: fs) = processFiles dir g fs from
        by rw [processFiles, hcf]]
      exact ih g hg
    | some pl =>
      obtain ⟨p0, l0⟩ := pl
      rw [show processFiles dir g (f :: fs) =
          processFiles dir (storeFile g p0 l0 (pathJoin dir f)) fs from
        by rw [processFiles, hcf]]
      exact ih _ (dinsert_keys_nodup g p0 _ hg)

/-- C3 counterexample.  The file `proj-In31_Cu.g31` classifies to the
copper layer `In31_Cu` (its extension `g31` is whitelisted), yet `main`
writes NO viewer-project file for it: the inner-layer loop only scans
`In1_Cu` .. `In30_Cu`. -/
theorem C3_counterexample :
    findGerberFiles (str ".") [str "proj-In31_Cu.g31"] =
      [(str "proj", [(str "In31_Cu", str "./proj-In31_Cu.g31")])] ∧
    gvpJobsFor (str "proj") [(str "In31_Cu", str "./proj-In31_Cu.g31")] = [] :=
  ⟨by decide, by decide⟩

/-- C3 (amended): project keys in the classifier result are distinct, and
for each project group `main` writes exactly one `.gvp` job per copper
layer that is BOTH present in the group and one of the scanned
identifiers `F_Cu`, `B_Cu`, `In1_Cu` .. `In30_Cu`; each job's file is
named `<project>-<display-name>.gvp` for that layer's display name. -/
theorem C3_one_gvp_per_copper (dir : Str) (listing : List Str) :
    ((findGerberFiles dir listing).map Prod.fst).Nodup ∧
    ∀ pr g, (pr, g) ∈ findGerberFiles dir listing → ∀ lid : Str,
      ((gvpJobsFor pr g).countP fun j => j.1 == lid) =
        (if (dlookup copperCands lid).isSome = true ∧
            (dlookup g lid).isSome = true then 1 else 0) ∧
      ∀ j ∈ gvpJobsFor pr g, ∃ nm, dlookup copperCands j.1 = some nm ∧
        j.2 = gvpName pr nm := by
  constructor
  · exact processFiles_keys_nodup dir (sortStrs listing) [] (by simp)
  · intro pr g _ lid
    constructor
    · rw [gvpJobsFor_eq, countP_jobs_key g pr lid copperCands (by decide)]
      rw [if_congr (and_congr_left'
        (dlookup_isSome_iff_mem copperCands lid).symm) rfl rfl]
    · intro j hj
      rw [gvpJobsFor_eq] at hj
      obtain ⟨c, hc, hopt⟩ := List.mem_filterMap.mp hj
      split at hopt
      · rw [Option.some.injEq] at hopt
        subst hopt
        exact ⟨c.2, dlookup_of_mem_nodup copperCands c.1 c.2 (by decide)
          (by rwa [show ((c.1, c.2) : Str × Str) = c from rfl]), rfl⟩
      · exact absurd hopt (by simp)

/-- Witness for `C3_one_gvp_per_copper`: one project holding only `F_Cu`
gets exactly one job, for `F_Cu`, named `proj-top.gvp`. -/
theorem C3_witness :
    ((gvpJobsFor (str "proj") [(str "F_Cu", str "./proj-F_Cu.gtl")]).countP
      fun j => j.1 == str "F_Cu") =
      (if (dlookup copperCands (str "F_Cu")).isSome = true ∧
          (dlookup [(str "F_Cu", str "./proj-F_Cu.gtl")]
            (str "F_Cu")).isSome = true then 1 else 0) ∧
    ∀ j ∈ gvpJobsFor (str "proj") [(str "F_Cu", str "./proj-F_Cu.gtl")],
      ∃ nm, dlookup copperCands j.1 = some nm ∧
        j.2 = gvpName (str "proj") nm :=
  (C3_one_gvp_per_copper (str ".") [str "proj-F_Cu.gtl"]).2 (str "proj")
    [(str "F_Cu", str "./proj-F_Cu.gtl")] (by decide) (str "F_Cu")
